import Mathlib

/-!
Shallow embedding of the page-cache core of `rust-mini-rdbms` (`src/main.rs`):
`DiskManager`, `Buffer`, `Frame`, `BufferPool` with clock-sweep eviction, and
`BufferPoolManager.fetch_page`, together with a small-step transition system
(fetch calls and handle drops) used to reason about reachable states.

Modelling conventions:
* `PageId` (`u64` newtype) and `BufferId` (`usize` newtype) are both embedded
  as `Nat`; none of the verified properties involve machine-integer overflow.
* Page bytes (`[u8; PAGE_SIZE]`) are embedded as `List Nat`.
* The heap file owned by `DiskManager` is a byte list; `read_page_data` uses
  `read_exact`, which fails exactly when the file is shorter than
  `offset + PAGE_SIZE` (reading a never-written page is an error).  A failed
  read is not a no-op: `read_exact` over a `File` first copies the bytes
  that are available at the offset over the front of the caller's buffer,
  so the buffer ends up with the available bytes followed by its untouched
  tail; the error payload carries that partially overwritten buffer.
* `write_page_data` can fail for environment reasons (disk full,
  permission); the environment is embedded as the `write_errs` oracle,
  whose entry `(page_id, k)` makes `write_all` for that page fail after
  writing its first `k` bytes (`write_all` is not atomic); the error
  payload carries the disk after the partial write.
* `Rc<Buffer>` shared ownership: `Frame.extRefs` counts the `Rc` clones held
  outside the pool (strong count minus one).  `Rc::get_mut(...).is_some()`
  corresponds to `extRefs = 0`; the `unwrap` on a pinned buffer, and
  out-of-bounds frame indexing, are embedded as the `crash` outcome (a Rust
  panic).
* Disk traffic is recorded in an `IOEvent` trace returned by `fetch_page`,
  in execution order.
-/

set_option maxRecDepth 20000

namespace MiniRdbms


def PAGE_SIZE : Nat := 4096

/-- Page bytes, `[u8; PAGE_SIZE]` in the source. -/
abbrev Page := List Nat

inductive MyError where
  | io
  | noFreeBuffer
deriving DecidableEq, Repr

/-- One disk operation performed by `fetch_page`, recorded in order. -/
inductive IOEvent where
  | read (page_id : Nat)
  | write (page_id : Nat) (data : Page)
deriving DecidableEq, Repr

/-- `DiskManager`: heap file bytes, the allocation counter, plus the
`write_errs` environment oracle for OS-level write failures: an entry
`(page_id, k)` makes `write_all` for that page fail after writing its first
`k` bytes (`write_all` is not atomic: a prefix may land before the error). -/
structure DiskManager where
  heap_file : List Nat
  next_page_id : Nat
  write_errs : List (Nat × Nat)
deriving DecidableEq, Repr

/-- `DiskManager::new`: `next_page_id = file_length / PAGE_SIZE`. -/
def DiskManager.new (file : List Nat) (write_errs : List (Nat × Nat)) : DiskManager :=
  { heap_file := file, next_page_id := file.length / PAGE_SIZE, write_errs := write_errs }

/-- `DiskManager::read_page_data`: seek to `PAGE_SIZE * page_id` and
`read_exact` into the `PAGE_SIZE`-byte caller buffer `data`.  A `File`
yields whatever bytes lie between the offset and end of file, so when fewer
than `PAGE_SIZE` bytes are available `read_exact` copies them over the front
of the buffer and then fails; the error payload is the buffer content after
the failed call (available bytes, then the untouched tail of `data`). -/
def DiskManager.read_page_data (d : DiskManager) (page_id : Nat) (data : Page) :
    Except Page Page :=
  if PAGE_SIZE ≤ (d.heap_file.drop (PAGE_SIZE * page_id)).length then
    .ok ((d.heap_file.drop (PAGE_SIZE * page_id)).take PAGE_SIZE)
  else
    .error (d.heap_file.drop (PAGE_SIZE * page_id) ++
      data.drop (d.heap_file.drop (PAGE_SIZE * page_id)).length)

/-- Writing `data` at byte `offset` of a file: the zero gap materializes
when a seek past end of file is followed by a write. -/
def spliceAt (file : List Nat) (offset : Nat) (data : List Nat) : List Nat :=
  let base := if file.length < offset then
      file ++ List.replicate (offset - file.length) 0
    else file
  base.take offset ++ data ++ base.drop (offset + data.length)

/-- `DiskManager::write_page_data`: seek to `PAGE_SIZE * page_id` and
`write_all`.  With no oracle entry the whole page is written; with entry
`(page_id, k)` the call fails after writing the first `k` bytes (nothing at
all, and no gap, when `k = 0`).  The error payload is the disk after the
partial write. -/
def DiskManager.write_page_data (d : DiskManager) (page_id : Nat) (data : Page) :
    Except DiskManager DiskManager :=
  match d.write_errs.lookup page_id with
  | some k =>
    if k = 0 then .error d
    else .error { d with
      heap_file := spliceAt d.heap_file (PAGE_SIZE * page_id) (data.take k) }
  | none =>
    .ok { d with heap_file := spliceAt d.heap_file (PAGE_SIZE * page_id) data }

/-- `DiskManager::allocate_page`: hand out `next_page_id` and bump it. -/
def DiskManager.allocate_page (d : DiskManager) : Nat × DiskManager :=
  (d.next_page_id, { d with next_page_id := d.next_page_id + 1 })

/-- `Buffer`: current page id, page bytes, modified flag. -/
structure Buffer where
  page_id : Nat
  page : Page
  is_dirty : Bool
deriving DecidableEq, Repr

/-- `impl Default for Buffer`: page id 0, zero-filled page, clean. -/
def Buffer.default : Buffer :=
  { page_id := 0, page := List.replicate PAGE_SIZE 0, is_dirty := false }

instance : Inhabited Buffer := ⟨Buffer.default⟩

/-- `Frame`: recency counter plus the owned `Rc<Buffer>`; `extRefs` embeds the
number of `Rc` clones alive outside the pool (strong count minus one). -/
structure Frame where
  usage_count : Nat
  buffer : Buffer
  extRefs : Nat
deriving DecidableEq, Repr

/-- `#[derive(Default)] Frame`: usage 0, default buffer, fresh `Rc`. -/
def Frame.default : Frame :=
  { usage_count := 0, buffer := Buffer.default, extRefs := 0 }

instance : Inhabited Frame := ⟨Frame.default⟩

structure BufferPool where
  buffers : List Frame
  next_victim_id : Nat
deriving DecidableEq, Repr

/-- `BufferPool::new(pool_size)`: `pool_size` default frames, cursor 0. -/
def BufferPool.new (pool_size : Nat) : BufferPool :=
  { buffers := List.replicate pool_size Frame.default, next_victim_id := 0 }

def sumUsage (fs : List Frame) : Nat := (fs.map Frame.usage_count).sum

/-- Result of the clock-sweep loop in `BufferPool::evict`.  `found` and
`exhausted` carry the mutated frames and the final cursor; `crash` is an
out-of-bounds index panic; `fuelOut` never occurs for the fuel used by
`BufferPool.evict` (see `evictLoop_ne_fuelOut`). -/
inductive LoopRes where
  | found (victim : Nat) (buffers : List Frame) (cursor : Nat)
  | exhausted (buffers : List Frame) (cursor : Nat)
  | crash
  | fuelOut
deriving DecidableEq, Repr

/-- The `loop` body of `BufferPool::evict`, one constructor-exact branch per
source branch: usage 0 breaks with the current cursor (without advancing it
and without checking pin state); an unpinned frame is decremented and the
scan continues with the streak reset; a pinned frame bumps the streak and the
scan fails once the streak reaches `pool_size`. -/
def evictLoop : Nat → List Frame → Nat → Nat → LoopRes
  | 0, _, _, _ => .fuelOut
  | fuel + 1, buffers, cursor, streak =>
    match buffers[cursor]? with
    | none => .crash
    | some frame =>
      if frame.usage_count = 0 then
        .found cursor buffers cursor
      else if frame.extRefs = 0 then
        evictLoop fuel (buffers.set cursor ({ frame with usage_count := frame.usage_count - 1 }))
          ((cursor + 1) % buffers.length) 0
      else if buffers.length ≤ streak + 1 then
        .exhausted buffers cursor
      else
        evictLoop fuel buffers ((cursor + 1) % buffers.length) (streak + 1)

/-- Fuel that provably suffices for the eviction scan to finish
(`evictLoop_ne_fuelOut`). -/
def evictFuel (fs : List Frame) : Nat :=
  sumUsage fs * (fs.length + 1) + fs.length + 1

inductive EvictRes where
  | crash
  | ok (victim : Option Nat) (pool : BufferPool)
deriving DecidableEq, Repr

/-- `BufferPool::evict`. -/
def BufferPool.evict (p : BufferPool) : EvictRes :=
  match evictLoop (evictFuel p.buffers) p.buffers p.next_victim_id 0 with
  | .found v fs c => .ok (some v) { buffers := fs, next_victim_id := c }
  | .exhausted fs c => .ok none { buffers := fs, next_victim_id := c }
  | .crash => .crash
  | .fuelOut => .crash

structure BufferPoolManager where
  disk : DiskManager
  pool : BufferPool
  page_table : List (Nat × Nat)
deriving DecidableEq, Repr

/-- `HashMap::remove` on the page table. -/
def ptRemove (t : List (Nat × Nat)) (k : Nat) : List (Nat × Nat) :=
  t.filter (fun e => e.1 != k)

/-- `HashMap::insert` on the page table. -/
def ptInsert (t : List (Nat × Nat)) (k v : Nat) : List (Nat × Nat) :=
  (k, v) :: ptRemove t k

inductive FetchOutcome where
  | ok (buffer_id : Nat)
  | err (e : MyError)
  | crash
deriving DecidableEq, Repr

/-- The flush-if-dirty step at the start of `fetch_page`'s miss path: write
the victim buffer back under its current page id when it is marked modified.
Returns the resulting disk and the completed write events; on failure the
error carries the disk after the partial write. -/
def flushStep (d : DiskManager) (b : Buffer) :
    Except DiskManager (DiskManager × List IOEvent) :=
  if b.is_dirty then
    match d.write_page_data b.page_id b.page with
    | .error d₁ => .error d₁
    | .ok d₁ => .ok (d₁, [IOEvent.write b.page_id b.page])
  else .ok (d, [])

/-- `BufferPoolManager::fetch_page`, returning the outcome, the mutated
manager (the source mutates `self` in place, also on the error paths), and
the disk operations performed, in order. -/
def fetch_page (m : BufferPoolManager) (page_id : Nat) :
    FetchOutcome × BufferPoolManager × List IOEvent :=
  match m.page_table.lookup page_id with
  | some buffer_id =>
    match m.pool.buffers[buffer_id]? with
    | none => (.crash, m, [])
    | some frame =>
      let frame₁ := { frame with usage_count := frame.usage_count + 1,
                                 extRefs := frame.extRefs + 1 }
      (.ok buffer_id,
        { m with pool := { m.pool with buffers := m.pool.buffers.set buffer_id frame₁ } },
        [])
  | none =>
    match m.pool.evict with
    | .crash => (.crash, m, [])
    | .ok none pool₁ => (.err .noFreeBuffer, { m with pool := pool₁ }, [])
    | .ok (some buffer_id) pool₁ =>
      match pool₁.buffers[buffer_id]? with
      | none => (.crash, { m with pool := pool₁ }, [])
      | some frame =>
        if frame.extRefs ≠ 0 then
          (.crash, { m with pool := pool₁ }, [])
        else
          let evict_page_id := frame.buffer.page_id
          match flushStep m.disk frame.buffer with
          | .error disk₀ => (.err .io, { m with disk := disk₀, pool := pool₁ }, [])
          | .ok (disk₁, events₁) =>
            let buffer₁ := { frame.buffer with page_id := page_id, is_dirty := false }
            match disk₁.read_page_data page_id frame.buffer.page with
            | .error filled =>
              let frame₁ := { frame with buffer := { buffer₁ with page := filled } }
              let buffers₁ := pool₁.buffers.set buffer_id frame₁
              (.err .io,
                { m with disk := disk₁, pool := { pool₁ with buffers := buffers₁ } },
                events₁)
            | .ok bytes =>
              let frame₂ := { frame with usage_count := 1,
                                         buffer := { buffer₁ with page := bytes },
                                         extRefs := frame.extRefs + 1 }
              let buffers₂ := pool₁.buffers.set buffer_id frame₂
              let table₂ := ptInsert (ptRemove m.page_table evict_page_id) page_id buffer_id
              (.ok buffer_id,
                { m with disk := disk₁,
                         pool := { pool₁ with buffers := buffers₂ },
                         page_table := table₂ },
                events₁ ++ [.read page_id])

def fetchOut (m : BufferPoolManager) (page_id : Nat) : FetchOutcome :=
  (fetch_page m page_id).1

def fetchSt (m : BufferPoolManager) (page_id : Nat) : BufferPoolManager :=
  (fetch_page m page_id).2.1

def fetchEv (m : BufferPoolManager) (page_id : Nat) : List IOEvent :=
  (fetch_page m page_id).2.2

/-- External references held to frame `b`'s buffer (0 when out of range). -/
def extAt (m : BufferPoolManager) (b : Nat) : Nat :=
  ((m.pool.buffers[b]?).map Frame.extRefs).getD 0

/-- Recency counter of frame `b` (0 when out of range). -/
def usageAt (m : BufferPoolManager) (b : Nat) : Nat :=
  ((m.pool.buffers[b]?).map Frame.usage_count).getD 0

/-- Buffer stored in frame `b`. -/
def bufAt (m : BufferPoolManager) (b : Nat) : Option Buffer :=
  (m.pool.buffers[b]?).map Frame.buffer

/-- Page id held by frame `b` (0 when out of range); only used on frames that
the page table points to. -/
def pageIdAt (m : BufferPoolManager) (b : Nat) : Nat :=
  ((m.pool.buffers[b]?).map (fun f => f.buffer.page_id)).getD 0

/-- Dropping one externally held handle onto frame `b`'s buffer (the `Rc`
clone goes out of scope). -/
def dropHandle (m : BufferPoolManager) (b : Nat) : BufferPoolManager :=
  { m with pool := { m.pool with buffers :=
      match m.pool.buffers[b]? with
      | some f => m.pool.buffers.set b ({ f with extRefs := f.extRefs - 1 })
      | none => m.pool.buffers } }

/-- One visible step of the single-threaded client: a `fetch_page` call that
does not panic (a Rust panic aborts the process, so no later state exists),
or dropping a held handle. -/
inductive Step : BufferPoolManager → BufferPoolManager → Prop
  | fetch (m : BufferPoolManager) (page_id : Nat) :
      fetchOut m page_id ≠ .crash → Step m (fetchSt m page_id)
  | drop (m : BufferPoolManager) (b : Nat) :
      0 < extAt m b → Step m (dropHandle m b)

/-- Like `Step`, but the `fetch_page` call is additionally required not to
return an I/O error. -/
inductive GoodStep : BufferPoolManager → BufferPoolManager → Prop
  | fetch (m : BufferPoolManager) (page_id : Nat) :
      fetchOut m page_id ≠ .crash → fetchOut m page_id ≠ .err .io →
      GoodStep m (fetchSt m page_id)
  | drop (m : BufferPoolManager) (b : Nat) :
      0 < extAt m b → GoodStep m (dropHandle m b)

def Reach (m₀ m : BufferPoolManager) : Prop := Relation.ReflTransGen Step m₀ m

def ReachGood (m₀ m : BufferPoolManager) : Prop := Relation.ReflTransGen GoodStep m₀ m

/-- A fresh `BufferPoolManager` over a freshly opened heap file. -/
def initMgr (file : List Nat) (write_errs : List (Nat × Nat)) (pool_size : Nat) :
    BufferPoolManager :=
  { disk := DiskManager.new file write_errs,
    pool := BufferPool.new pool_size,
    page_table := [] }

/-! ### Generic list helpers -/

def FrameLe (g f : Frame) : Prop :=
  g.buffer = f.buffer ∧ g.extRefs = f.extRefs ∧ g.usage_count ≤ f.usage_count ∧
    (g.usage_count ≠ f.usage_count → f.extRefs = 0)

def FramesOk (old new : List Frame) : Prop :=
  new.length = old.length ∧
    ∀ (i : Nat) (g : Frame), new[i]? = some g → ∃ f, old[i]? = some f ∧ FrameLe g f

/-- What each terminal result of the scan guarantees relative to the frames
at the start of the scan. -/
def ResOk (fs : List Frame) : LoopRes → Prop
  | .found v fs₁ c₁ => FramesOk fs fs₁ ∧ v < fs.length ∧ c₁ = v ∧
      ∃ g f, fs₁[v]? = some g ∧ fs[v]? = some f ∧ g.usage_count = 0 ∧
        g.buffer = f.buffer ∧ g.extRefs = f.extRefs
  | .exhausted fs₁ c₁ => FramesOk fs fs₁ ∧ c₁ < fs.length
  | .crash => True
  | .fuelOut => True

/-- Pin discipline: every pinned frame has a nonzero recency counter (each
handle issuance also bumps the counter), and the scan cursor is in range. -/
def PinFrames (fs : List Frame) : Prop :=
  ∀ (b : Nat) (f : Frame), fs[b]? = some f → 0 < f.extRefs → 0 < f.usage_count

def PinInv (m : BufferPoolManager) : Prop :=
  PinFrames m.pool.buffers ∧
    (0 < m.pool.buffers.length → m.pool.next_victim_id < m.pool.buffers.length)

/-- Page-table consistency: keys are distinct and every entry points at a
frame whose buffer currently carries that page id. -/
def TableInv (m : BufferPoolManager) : Prop :=
  (m.page_table.map Prod.fst).Nodup ∧
    ∀ e ∈ m.page_table, ∃ f, m.pool.buffers[e.2]? = some f ∧ f.buffer.page_id = e.1

/-- A one-page heap file of zeros. -/
def wFile : List Nat := List.replicate PAGE_SIZE 0

/-- A fresh manager over `wFile`, pool size 1. -/
def wInit : BufferPoolManager := initMgr wFile [] 1

/-- Zero-filled page bytes. -/
def pageZ : Page := List.replicate PAGE_SIZE 0

/-- The frame holding page 0 after `fetch_page wInit 0` (handle held). -/
def wS1Frame : Frame :=
  { usage_count := 1,
    buffer := { page_id := 0, page := pageZ, is_dirty := false },
    extRefs := 1 }

/-- `wInit` after fetching page 0. -/
def wS1 : BufferPoolManager :=
  { disk := DiskManager.new wFile [],
    pool := { buffers := [wS1Frame], next_victim_id := 0 },
    page_table := [(0, 0)] }

/-- One dirty frame holding page 3; the environment fails writes to page 3. -/
def wDirtyFrame : Frame :=
  { usage_count := 0,
    buffer := { page_id := 3, page := List.replicate PAGE_SIZE 9, is_dirty := true },
    extRefs := 0 }

def wDirty : BufferPoolManager :=
  { disk := { heap_file := [], next_page_id := 0, write_errs := [(3, 0)] },
    pool := { buffers := [wDirtyFrame], next_victim_id := 0 },
    page_table := [(3, 0)] }

/-- Frames for the C10 bound counterexample: frame 0 unpinned with recency 5,
frame 1 pinned with recency 1. -/
def c10frames : List Frame :=
  [{ usage_count := 5, buffer := Buffer.default, extRefs := 0 },
   { usage_count := 1, buffer := Buffer.default, extRefs := 1 }]

/-- A two-page heap file of zeros. -/
def cexFile : List Nat := List.replicate (2 * PAGE_SIZE) 0

def cexDisk : DiskManager := DiskManager.new cexFile []

/-- A fresh manager over `cexFile`, pool size 1. -/
def cexInit : BufferPoolManager := initMgr cexFile [] 1

/-- After fetching page 0 (handle held). -/
def cexS1 : BufferPoolManager :=
  { disk := cexDisk,
    pool := { buffers := [{ usage_count := 1,
                            buffer := { page_id := 0, page := pageZ, is_dirty := false },
                            extRefs := 1 }],
              next_victim_id := 0 },
    page_table := [(0, 0)] }

/-- After dropping the handle. -/
def cexS2 : BufferPoolManager :=
  { disk := cexDisk,
    pool := { buffers := [{ usage_count := 1,
                            buffer := { page_id := 0, page := pageZ, is_dirty := false },
                            extRefs := 0 }],
              next_victim_id := 0 },
    page_table := [(0, 0)] }

/-- After `fetch_page` of the unreadable page 2 failed in its load step: the
frame already carries page id 2, but the page table still maps page 0 to the
frame. -/
def cexS3 : BufferPoolManager :=
  { disk := cexDisk,
    pool := { buffers := [{ usage_count := 0,
                            buffer := { page_id := 2, page := pageZ, is_dirty := false },
                            extRefs := 0 }],
              next_victim_id := 0 },
    page_table := [(0, 0)] }

/-- After a successful `fetch_page 1`: the stale entry for page 0 survives,
so both page 0 and page 1 map to buffer 0 and the table has 2 entries in a
pool of size 1. -/
def cexS4 : BufferPoolManager :=
  { disk := cexDisk,
    pool := { buffers := [{ usage_count := 1,
                            buffer := { page_id := 1, page := pageZ, is_dirty := false },
                            extRefs := 1 }],
              next_victim_id := 0 },
    page_table := [(1, 0), (0, 0)] }

/-- Prior bytes of the C6 counterexample's victim buffer. -/
def p6prior : Page := List.replicate PAGE_SIZE 9

/-- The 100 bytes available on disk at page 1's offset. -/
def p6avail : List Nat := List.replicate 100 7

/-- A heap file holding page 0 in full and 100 further bytes: page 1 exists
only partially, so reading it fails after a partial fill. -/
def p6file : List Nat := List.replicate PAGE_SIZE 0 ++ p6avail

/-- The victim buffer's bytes after the failed `read_exact` of page 1: the
100 available bytes over the front, the stale tail behind them. -/
def p6filled : Page := List.replicate 100 7 ++ List.replicate (PAGE_SIZE - 100) 9

def w6Disk : DiskManager :=
  { heap_file := p6file, next_page_id := 1, write_errs := [] }

/-- An evictable clean frame holding page 0 with bytes `p6prior`. -/
def w6Frame : Frame :=
  { usage_count := 0,
    buffer := { page_id := 0, page := p6prior, is_dirty := false },
    extRefs := 0 }

def w6 : BufferPoolManager :=
  { disk := w6Disk,
    pool := { buffers := [w6Frame], next_victim_id := 0 },
    page_table := [(0, 0)] }

theorem getElem?_some_lt {α : Type} {l : List α} {i : Nat} {a : α}
    (h : l[i]? = some a) : i < l.length := by
  rcases List.getElem?_eq_some.mp h with ⟨hlt, _⟩
  exact hlt

theorem sumUsage_set_add (fs : List Frame) (c : Nat) (f g : Frame)
    (h : fs[c]? = some f) :
    sumUsage (fs.set c g) + f.usage_count = sumUsage fs + g.usage_count := by
  induction fs generalizing c with
  | nil => simp at h
  | cons a as ih =>
    cases c with
    | zero =>
      simp only [List.getElem?_cons_zero, Option.some.injEq] at h
      subst h
      simp [sumUsage]
      omega
    | succ c =>
      simp only [List.getElem?_cons_succ] at h
      have := ih c h
      simp only [List.set_cons_succ, sumUsage, List.map_cons, List.sum_cons] at *
      omega

/-! ### What the eviction scan does to the frames

`FrameLe g f` relates a frame after the scan to the same slot before it:
the buffer and the external references are untouched, and the recency
counter can only have been decremented, which only happens to unpinned
frames. -/

theorem frameLe_refl (f : Frame) : FrameLe f f :=
  ⟨rfl, rfl, Nat.le_refl _, fun h => absurd rfl h⟩

theorem frameLe_trans {h g f : Frame} (h₁ : FrameLe h g) (h₂ : FrameLe g f) :
    FrameLe h f := by
  obtain ⟨b₁, e₁, u₁, d₁⟩ := h₁
  obtain ⟨b₂, e₂, u₂, d₂⟩ := h₂
  refine ⟨b₁.trans b₂, e₁.trans e₂, u₁.trans u₂, fun hne => ?_⟩
  by_cases hu : g.usage_count = f.usage_count
  · exact e₂ ▸ d₁ (by omega)
  · exact d₂ hu

theorem framesOk_refl (fs : List Frame) : FramesOk fs fs :=
  ⟨rfl, fun _ g hg => ⟨g, hg, frameLe_refl g⟩⟩

theorem framesOk_trans {a b c : List Frame} (h₁ : FramesOk a b) (h₂ : FramesOk b c) :
    FramesOk a c := by
  obtain ⟨l₁, p₁⟩ := h₁
  obtain ⟨l₂, p₂⟩ := h₂
  refine ⟨l₂.trans l₁, fun i g hg => ?_⟩
  obtain ⟨f, hf, hle⟩ := p₂ i g hg
  obtain ⟨e, he, hle₂⟩ := p₁ i f hf
  exact ⟨e, he, frameLe_trans hle hle₂⟩

theorem framesOk_set_dec (fs : List Frame) (c : Nat) (f : Frame)
    (hf : fs[c]? = some f) (hext : f.extRefs = 0) :
    FramesOk fs (fs.set c ({ f with usage_count := f.usage_count - 1 })) := by
  refine ⟨List.length_set fs c _, fun i g hg => ?_⟩
  by_cases hic : c = i
  · subst hic
    rw [List.getElem?_set_eq (getElem?_some_lt hf)] at hg
    cases hg
    exact ⟨f, hf, rfl, rfl, Nat.sub_le _ _, fun _ => hext⟩
  · rw [List.getElem?_set_ne hic] at hg
    exact ⟨g, hg, frameLe_refl g⟩

theorem resOk_mono {fs fs₁ : List Frame} (h : FramesOk fs fs₁) (r : LoopRes)
    (hr : ResOk fs₁ r) : ResOk fs r := by
  obtain ⟨hlen, hmap⟩ := h
  cases r with
  | found v fs₂ c₂ =>
    obtain ⟨hok, hv, hc, g, f, hg, hf, hu, hb, he⟩ := hr
    obtain ⟨f₀, hf₀, hle⟩ := hmap v f hf
    exact ⟨framesOk_trans ⟨hlen, hmap⟩ hok, hlen ▸ hv, hc, g, f₀, hg, hf₀, hu,
      hb.trans hle.1, he.trans hle.2.1⟩
  | exhausted fs₂ c₂ =>
    obtain ⟨hok, hc⟩ := hr
    exact ⟨framesOk_trans ⟨hlen, hmap⟩ hok, hlen ▸ hc⟩
  | crash => trivial
  | fuelOut => trivial

theorem evictLoop_resOk (fuel : Nat) :
    ∀ fs c s, ResOk fs (evictLoop fuel fs c s) := by
  induction fuel with
  | zero => intro fs c s; trivial
  | succ fuel ih =>
    intro fs c s
    cases hc : fs[c]? with
    | none => simp [evictLoop, hc, ResOk]
    | some frame =>
      simp only [evictLoop, hc]
      by_cases hu : frame.usage_count = 0
      · simp only [if_pos hu]
        exact ⟨framesOk_refl fs, getElem?_some_lt hc, rfl, frame, frame, hc, hc, hu, rfl, rfl⟩
      · rw [if_neg hu]
        by_cases he : frame.extRefs = 0
        · rw [if_pos he]
          exact resOk_mono (framesOk_set_dec fs c frame hc he) _ (ih _ _ _)
        · rw [if_neg he]
          by_cases hs : fs.length ≤ s + 1
          · rw [if_pos hs]
            exact ⟨framesOk_refl fs, getElem?_some_lt hc⟩
          · rw [if_neg hs]
            exact ih _ _ _

/-- With the fuel used by `BufferPool.evict`, the scan always reaches one of
the source loop exits: it never runs out of fuel. -/
theorem evictLoop_ne_fuelOut (fuel : Nat) :
    ∀ fs c s, sumUsage fs * (fs.length + 1) + (fs.length - s) < fuel →
      evictLoop fuel fs c s ≠ .fuelOut := by
  induction fuel with
  | zero => intro fs c s h; omega
  | succ fuel ih =>
    intro fs c s h
    cases hc : fs[c]? with
    | none => simp [evictLoop, hc]
    | some frame =>
      simp only [evictLoop, hc]
      by_cases hu : frame.usage_count = 0
      · simp [hu]
      · rw [if_neg hu]
        by_cases he : frame.extRefs = 0
        · rw [if_pos he]
          apply ih
          have hadd := sumUsage_set_add fs c frame
            ({ frame with usage_count := frame.usage_count - 1 }) hc
          rw [List.length_set]
          simp only at hadd
          have h1 : sumUsage (fs.set c ({ frame with usage_count := frame.usage_count - 1 }))
              + 1 ≤ sumUsage fs := by omega
          nlinarith [Nat.sub_le fs.length s, Nat.sub_le fs.length 0]
        · rw [if_neg he]
          by_cases hs : fs.length ≤ s + 1
          · simp [hs]
          · rw [if_neg hs]
            apply ih
            omega

/-- As long as the cursor is inside the frame array, the scan never panics:
every frame access is in bounds, since both continuing branches move the
cursor to `(c + 1) % len`, which is again in bounds. -/
theorem evictLoop_ne_crash (fuel : Nat) :
    ∀ fs c s, c < fs.length → evictLoop fuel fs c s ≠ .crash := by
  induction fuel with
  | zero => intro fs c s hc; simp [evictLoop]
  | succ fuel ih =>
    intro fs c s hc
    cases hcf : fs[c]? with
    | none =>
      rw [List.getElem?_eq_getElem hc] at hcf
      exact Option.noConfusion hcf
    | some f =>
      simp only [evictLoop, hcf]
      by_cases hu : f.usage_count = 0
      · simp [hu]
      · rw [if_neg hu]
        by_cases he : f.extRefs = 0
        · rw [if_pos he]
          apply ih
          rw [List.length_set]
          exact Nat.mod_lt _ (by omega)
        · rw [if_neg he]
          by_cases hs : fs.length ≤ s + 1
          · simp [hs]
          · rw [if_neg hs]
            apply ih
            exact Nat.mod_lt _ (by omega)

/-- The scan result is independent of the fuel, once the fuel is enough to
reach a source exit; `evictLoop` with the fuel of `BufferPool.evict` is thus
a faithful rendering of the unbounded source `loop`. -/
theorem evictLoop_stable (fuel₁ : Nat) :
    ∀ fuel₂ fs c s, fuel₁ ≤ fuel₂ → evictLoop fuel₁ fs c s ≠ .fuelOut →
      evictLoop fuel₂ fs c s = evictLoop fuel₁ fs c s := by
  induction fuel₁ with
  | zero =>
    intro fuel₂ fs c s _ hne
    exact absurd rfl hne
  | succ fuel₁ ih =>
    intro fuel₂ fs c s hle hne
    obtain ⟨fuel₂, rfl⟩ : ∃ k, fuel₂ = k + 1 := ⟨fuel₂ - 1, by omega⟩
    cases hc : fs[c]? with
    | none => simp [evictLoop, hc]
    | some frame =>
      simp only [evictLoop, hc] at hne ⊢
      by_cases hu : frame.usage_count = 0
      · simp [hu]
      · simp only [if_neg hu] at hne ⊢
        by_cases he : frame.extRefs = 0
        · simp only [if_pos he] at hne ⊢
          exact ih fuel₂ _ _ _ (by omega) hne
        · simp only [if_neg he] at hne ⊢
          by_cases hs : fs.length ≤ s + 1
          · simp [hs]
          · simp only [if_neg hs] at hne ⊢
            exact ih fuel₂ _ _ _ (by omega) hne

/-- If every frame is pinned with a nonzero recency counter, the scan walks
a full pinned streak and gives up, leaving the frames unchanged. -/
theorem evictLoop_all_pinned (fuel : Nat) :
    ∀ fs c s, (∀ (i : Nat) (f : Frame), fs[i]? = some f → 0 < f.extRefs ∧ 0 < f.usage_count) →
      c < fs.length → s < fs.length → fs.length - s ≤ fuel →
      ∃ c₁, evictLoop fuel fs c s = .exhausted fs c₁ := by
  induction fuel with
  | zero => intro fs c s _ _ hs hf; omega
  | succ fuel ih =>
    intro fs c s hall hc hs hf
    cases hcf : fs[c]? with
    | none =>
      exact absurd (List.getElem?_eq_getElem hc) (by simp [hcf])
    | some frame =>
      obtain ⟨hpe, hpu⟩ := hall c frame hcf
      simp only [evictLoop, hcf]
      rw [if_neg (by omega), if_neg (by omega)]
      by_cases hlen : fs.length ≤ s + 1
      · rw [if_pos hlen]
        exact ⟨c, rfl⟩
      · rw [if_neg hlen]
        exact ih fs _ (s + 1) hall (Nat.mod_lt _ (by omega)) (by omega) (by omega)

/-! ### Characterization of `BufferPool.evict` and the `fetch_page` branches -/

theorem evict_ok_props (p : BufferPool) (v : Option Nat) (q : BufferPool)
    (h : p.evict = .ok v q) :
    FramesOk p.buffers q.buffers ∧ q.next_victim_id < p.buffers.length ∧
      ∀ b, v = some b → q.next_victim_id = b ∧ b < p.buffers.length ∧
        ∃ g f, q.buffers[b]? = some g ∧ p.buffers[b]? = some f ∧
          g.usage_count = 0 ∧ g.buffer = f.buffer ∧ g.extRefs = f.extRefs := by
  have hres := evictLoop_resOk (evictFuel p.buffers) p.buffers p.next_victim_id 0
  unfold BufferPool.evict at h
  cases hl : evictLoop (evictFuel p.buffers) p.buffers p.next_victim_id 0 with
  | found v₀ fs c =>
    rw [hl] at h hres
    obtain ⟨hok, hv, hc, g, f, hg, hf, hu, hb, he⟩ := hres
    cases h
    refine ⟨hok, by show c < p.buffers.length; omega, fun b hb₀ => ?_⟩
    cases hb₀
    exact ⟨hc, hv, g, f, hg, hf, hu, hb, he⟩
  | exhausted fs c =>
    rw [hl] at h hres
    obtain ⟨hok, hc⟩ := hres
    cases h
    exact ⟨hok, hc, fun b hb₀ => by cases hb₀⟩
  | crash => rw [hl] at h; cases h
  | fuelOut => rw [hl] at h; cases h

theorem evict_length (p : BufferPool) (v : Option Nat) (q : BufferPool)
    (h : p.evict = .ok v q) : q.buffers.length = p.buffers.length :=
  (evict_ok_props p v q h).1.1

theorem evict_nil (p : BufferPool) (h : p.buffers = []) : p.evict = .crash := by
  unfold BufferPool.evict
  rw [h]
  simp [evictLoop, evictFuel, sumUsage]

theorem fetch_hit (m : BufferPoolManager) (pid bid : Nat) (f : Frame)
    (hl : m.page_table.lookup pid = some bid)
    (hf : m.pool.buffers[bid]? = some f) :
    fetch_page m pid =
      (.ok bid,
       { m with pool := { m.pool with buffers := m.pool.buffers.set bid ({ f with
           usage_count := f.usage_count + 1, extRefs := f.extRefs + 1 }) } },
       []) := by
  simp [fetch_page, hl, hf]

theorem fetch_hit_crash (m : BufferPoolManager) (pid bid : Nat)
    (hl : m.page_table.lookup pid = some bid)
    (hf : m.pool.buffers[bid]? = none) :
    fetch_page m pid = (.crash, m, []) := by
  simp [fetch_page, hl, hf]

theorem fetch_miss_crash (m : BufferPoolManager) (pid : Nat)
    (hl : m.page_table.lookup pid = none)
    (hev : m.pool.evict = .crash) :
    fetch_page m pid = (.crash, m, []) := by
  simp [fetch_page, hl, hev]

theorem fetch_miss_nofree (m : BufferPoolManager) (pid : Nat) (q : BufferPool)
    (hl : m.page_table.lookup pid = none)
    (hev : m.pool.evict = .ok none q) :
    fetch_page m pid = (.err .noFreeBuffer, { m with pool := q }, []) := by
  simp [fetch_page, hl, hev]

theorem fetch_miss_badidx (m : BufferPoolManager) (pid bid : Nat) (q : BufferPool)
    (hl : m.page_table.lookup pid = none)
    (hev : m.pool.evict = .ok (some bid) q)
    (hf : q.buffers[bid]? = none) :
    fetch_page m pid = (.crash, { m with pool := q }, []) := by
  simp [fetch_page, hl, hev, hf]

theorem fetch_miss_pinned (m : BufferPoolManager) (pid bid : Nat) (q : BufferPool) (f : Frame)
    (hl : m.page_table.lookup pid = none)
    (hev : m.pool.evict = .ok (some bid) q)
    (hf : q.buffers[bid]? = some f)
    (hx : f.extRefs ≠ 0) :
    fetch_page m pid = (.crash, { m with pool := q }, []) := by
  simp [fetch_page, hl, hev, hf, hx]

theorem fetch_miss_flush_err (m : BufferPoolManager) (pid bid : Nat) (q : BufferPool) (f : Frame)
    (d₀ : DiskManager)
    (hl : m.page_table.lookup pid = none)
    (hev : m.pool.evict = .ok (some bid) q)
    (hf : q.buffers[bid]? = some f)
    (hx : f.extRefs = 0)
    (hw : flushStep m.disk f.buffer = .error d₀) :
    fetch_page m pid = (.err .io, { m with disk := d₀, pool := q }, []) := by
  simp [fetch_page, hl, hev, hf, hx, hw]

theorem fetch_miss_read_err (m : BufferPoolManager) (pid bid : Nat) (q : BufferPool) (f : Frame)
    (d : DiskManager) (ev : List IOEvent) (filled : Page)
    (hl : m.page_table.lookup pid = none)
    (hev : m.pool.evict = .ok (some bid) q)
    (hf : q.buffers[bid]? = some f)
    (hx : f.extRefs = 0)
    (hw : flushStep m.disk f.buffer = .ok (d, ev))
    (hr : d.read_page_data pid f.buffer.page = .error filled) :
    fetch_page m pid =
      (.err .io,
       { m with disk := d,
                pool := { q with buffers := q.buffers.set bid ({ f with
                  buffer := { page_id := pid, page := filled, is_dirty := false } }) } },
       ev) := by
  simp [fetch_page, hl, hev, hf, hx, hw, hr]

theorem fetch_miss_ok (m : BufferPoolManager) (pid bid : Nat) (q : BufferPool) (f : Frame)
    (d : DiskManager) (ev : List IOEvent) (bytes : Page)
    (hl : m.page_table.lookup pid = none)
    (hev : m.pool.evict = .ok (some bid) q)
    (hf : q.buffers[bid]? = some f)
    (hx : f.extRefs = 0)
    (hw : flushStep m.disk f.buffer = .ok (d, ev))
    (hr : d.read_page_data pid f.buffer.page = .ok bytes) :
    fetch_page m pid =
      (.ok bid,
       { m with disk := d,
                pool := { q with buffers := q.buffers.set bid ({ f with
                  usage_count := 1,
                  buffer := { page_id := pid, page := bytes, is_dirty := false },
                  extRefs := f.extRefs + 1 }) },
                page_table := ptInsert (ptRemove m.page_table f.buffer.page_id) pid bid },
       ev ++ [.read pid]) := by
  simp [fetch_page, hl, hev, hf, hx, hw, hr]

/-! ### Reachability invariants -/

theorem pinFrames_framesOk {fs fs₂ : List Frame} (hok : FramesOk fs fs₂)
    (hp : PinFrames fs) : PinFrames fs₂ := by
  intro b f hf hext
  obtain ⟨f₀, hf₀, hb, he, hu, hd⟩ := hok.2 b f hf
  by_cases heq : f.usage_count = f₀.usage_count
  · rw [heq]
    exact hp b f₀ hf₀ (he ▸ hext)
  · have := hd heq
    omega

theorem pinFrames_set {fs : List Frame} {b : Nat} {g : Frame}
    (hp : PinFrames fs) (hg : 0 < g.extRefs → 0 < g.usage_count) :
    PinFrames (fs.set b g) := by
  intro b₂ f hf hext
  by_cases hbb : b = b₂
  · subst hbb
    rcases Nat.lt_or_ge b fs.length with hlt | hge
    · rw [List.getElem?_set_eq hlt] at hf
      cases hf
      exact hg hext
    · rw [List.set_eq_of_length_le hge] at hf
      exact hp b f hf hext
  · rw [List.getElem?_set_ne hbb] at hf
    exact hp b₂ f hf hext

theorem pinInv_init (file : List Nat) (write_errs : List (Nat × Nat)) (n : Nat) :
    PinInv (initMgr file write_errs n) := by
  constructor
  · intro b f hf hext
    simp only [initMgr, BufferPool.new] at hf
    rw [List.getElem?_replicate] at hf
    have : f = Frame.default := by
      by_cases hlt : b < n
      · rw [if_pos hlt] at hf
        exact ((Option.some.injEq _ _).mp hf).symm
      · rw [if_neg hlt] at hf
        cases hf
    rw [this] at hext
    simp [Frame.default] at hext
  · intro h
    simpa [initMgr, BufferPool.new] using h

theorem tableInv_init (file : List Nat) (write_errs : List (Nat × Nat)) (n : Nat) :
    TableInv (initMgr file write_errs n) := by
  constructor
  · simp [initMgr]
  · intro e he
    simp [initMgr] at he

theorem fetch_split {m : BufferPoolManager} {pid : Nat} {o : FetchOutcome}
    {st : BufferPoolManager} {ev : List IOEvent}
    (h : fetch_page m pid = (o, st, ev)) :
    fetchOut m pid = o ∧ fetchSt m pid = st ∧ fetchEv m pid = ev := by
  refine ⟨?_, ?_, ?_⟩ <;> simp [fetchOut, fetchSt, fetchEv, h]

theorem step_pin (m m₂ : BufferPoolManager) (h : Step m m₂) (hp : PinInv m) :
    PinInv m₂ ∧ m₂.pool.buffers.length = m.pool.buffers.length := by
  obtain ⟨hpin, hcur⟩ := hp
  cases h with
  | drop b hb =>
    cases hf : m.pool.buffers[b]? with
    | none =>
      simp only [dropHandle, hf]
      exact ⟨⟨hpin, hcur⟩, by trivial⟩
    | some f =>
      simp only [dropHandle, hf]
      refine ⟨⟨pinFrames_set hpin ?_, ?_⟩, List.length_set _ _ _⟩
      · intro hext
        exact hpin b f hf (by simp at hext; omega)
      · rw [List.length_set]
        exact hcur
  | fetch pid hne =>
    cases hl : m.page_table.lookup pid with
    | some bid =>
      cases hf : m.pool.buffers[bid]? with
      | none =>
        exact absurd (fetch_split (fetch_hit_crash m pid bid hl hf)).1 hne
      | some f =>
        rw [(fetch_split (fetch_hit m pid bid f hl hf)).2.1]
        refine ⟨⟨pinFrames_set hpin (fun _ => by simp), ?_⟩, List.length_set _ _ _⟩
        rw [List.length_set]
        exact hcur
    | none =>
      cases hev : m.pool.evict with
      | crash =>
        exact absurd (fetch_split (fetch_miss_crash m pid hl hev)).1 hne
      | ok v q =>
        obtain ⟨hok, hcur₂, hvic⟩ := evict_ok_props _ _ _ hev
        have hlen := hok.1
        cases v with
        | none =>
          rw [(fetch_split (fetch_miss_nofree m pid q hl hev)).2.1]
          exact ⟨⟨pinFrames_framesOk hok hpin,
            fun _ => by show q.next_victim_id < q.buffers.length; omega⟩, hlen⟩
        | some bid =>
          cases hf : q.buffers[bid]? with
          | none =>
            exact absurd (fetch_split (fetch_miss_badidx m pid bid q hl hev hf)).1 hne
          | some f =>
            by_cases hx : f.extRefs = 0
            · cases hw : flushStep m.disk f.buffer with
              | error d₀ =>
                rw [(fetch_split (fetch_miss_flush_err m pid bid q f d₀ hl hev hf hx hw)).2.1]
                exact ⟨⟨pinFrames_framesOk hok hpin,
                  fun _ => by show q.next_victim_id < q.buffers.length; omega⟩, hlen⟩
              | ok pr =>
                obtain ⟨d, ev⟩ := pr
                cases hr : d.read_page_data pid f.buffer.page with
                | error filled =>
                  rw [(fetch_split
                    (fetch_miss_read_err m pid bid q f d ev filled hl hev hf hx hw hr)).2.1]
                  refine ⟨⟨pinFrames_set (pinFrames_framesOk hok hpin) ?_, fun _ => ?_⟩,
                    by rw [List.length_set]; exact hlen⟩
                  · intro hext
                    simp only at hext
                    omega
                  · show q.next_victim_id < (q.buffers.set bid _).length
                    rw [List.length_set]
                    omega
                | ok bytes =>
                  rw [(fetch_split (fetch_miss_ok m pid bid q f d ev bytes hl hev hf hx hw hr)).2.1]
                  refine ⟨⟨pinFrames_set (pinFrames_framesOk hok hpin) (fun _ => by simp),
                    fun _ => ?_⟩, by rw [List.length_set]; exact hlen⟩
                  show q.next_victim_id < (q.buffers.set bid _).length
                  rw [List.length_set]
                  omega
            · exact absurd (fetch_split (fetch_miss_pinned m pid bid q f hl hev hf hx)).1 hne

theorem mem_ptRemove {t : List (Nat × Nat)} {k : Nat} {e : Nat × Nat} :
    e ∈ ptRemove t k ↔ e ∈ t ∧ e.1 ≠ k := by
  simp [ptRemove, List.mem_filter]

theorem ptRemove_keys_sublist (t : List (Nat × Nat)) (k : Nat) :
    ((ptRemove t k).map Prod.fst).Sublist (t.map Prod.fst) :=
  (List.filter_sublist t).map Prod.fst

theorem framesOk_buffer_preserved {fs fs₂ : List Frame} (hok : FramesOk fs fs₂)
    {i : Nat} {f : Frame} (hf : fs[i]? = some f) :
    ∃ g, fs₂[i]? = some g ∧ g.buffer = f.buffer := by
  have hi : i < fs₂.length := by
    have h₁ := getElem?_some_lt hf
    have h₂ := hok.1
    omega
  have hg : fs₂[i]? = some fs₂[i] := List.getElem?_eq_getElem hi
  obtain ⟨f₀, hf₀, hle⟩ := hok.2 i _ hg
  rw [hf] at hf₀
  cases hf₀
  exact ⟨_, hg, hle.1⟩

theorem tableInv_set_same_buffer (m : BufferPoolManager) (b : Nat) (g : Frame)
    (hb : ∀ f, m.pool.buffers[b]? = some f → g.buffer = f.buffer)
    (ht : TableInv m) :
    TableInv { m with pool := { m.pool with buffers := m.pool.buffers.set b g } } := by
  obtain ⟨hkeys, hcons⟩ := ht
  refine ⟨hkeys, fun e he => ?_⟩
  obtain ⟨f₀, hf₀, hpid⟩ := hcons e he
  by_cases hbe : b = e.2
  · refine ⟨g, ?_, ?_⟩
    · show (m.pool.buffers.set b g)[e.2]? = some g
      rw [← hbe]
      exact List.getElem?_set_eq (by rw [hbe]; exact getElem?_some_lt hf₀)
    · rw [hb f₀ (by rw [hbe]; exact hf₀), hpid]
  · refine ⟨f₀, ?_, hpid⟩
    show (m.pool.buffers.set b g)[e.2]? = some f₀
    rw [List.getElem?_set_ne hbe]
    exact hf₀

theorem goodStep_table (m m₂ : BufferPoolManager) (h : GoodStep m m₂)
    (ht : TableInv m) : TableInv m₂ := by
  obtain ⟨hkeys, hcons⟩ := ht
  cases h with
  | drop b hb =>
    cases hf : m.pool.buffers[b]? with
    | none =>
      simp only [dropHandle, hf]
      exact ⟨hkeys, hcons⟩
    | some f =>
      simp only [dropHandle, hf]
      refine tableInv_set_same_buffer m b _ (fun f₀ hf₀ => ?_) ⟨hkeys, hcons⟩
      rw [hf] at hf₀
      cases hf₀
      rfl
  | fetch pid hne hio =>
    cases hl : m.page_table.lookup pid with
    | some bid =>
      cases hf : m.pool.buffers[bid]? with
      | none =>
        exact absurd (fetch_split (fetch_hit_crash m pid bid hl hf)).1 hne
      | some f =>
        rw [(fetch_split (fetch_hit m pid bid f hl hf)).2.1]
        refine tableInv_set_same_buffer m bid _ (fun f₀ hf₀ => ?_) ⟨hkeys, hcons⟩
        rw [hf] at hf₀
        cases hf₀
        rfl
    | none =>
      cases hev : m.pool.evict with
      | crash =>
        exact absurd (fetch_split (fetch_miss_crash m pid hl hev)).1 hne
      | ok v q =>
        obtain ⟨hok, hcur₂, hvic⟩ := evict_ok_props _ _ _ hev
        cases v with
        | none =>
          rw [(fetch_split (fetch_miss_nofree m pid q hl hev)).2.1]
          refine ⟨hkeys, fun e he => ?_⟩
          obtain ⟨f₀, hf₀, hpid⟩ := hcons e he
          obtain ⟨g, hg, hgb⟩ := framesOk_buffer_preserved hok hf₀
          exact ⟨g, hg, by rw [hgb, hpid]⟩
        | some bid =>
          cases hf : q.buffers[bid]? with
          | none =>
            exact absurd (fetch_split (fetch_miss_badidx m pid bid q hl hev hf)).1 hne
          | some f =>
            by_cases hx : f.extRefs = 0
            · cases hw : flushStep m.disk f.buffer with
              | error d₀ =>
                exact absurd
                  (fetch_split (fetch_miss_flush_err m pid bid q f d₀ hl hev hf hx hw)).1 hio
              | ok pr =>
                obtain ⟨d, ev⟩ := pr
                cases hr : d.read_page_data pid f.buffer.page with
                | error filled =>
                  exact absurd
                    (fetch_split
                      (fetch_miss_read_err m pid bid q f d ev filled hl hev hf hx hw hr)).1 hio
                | ok bytes =>
                  rw [(fetch_split (fetch_miss_ok m pid bid q f d ev bytes hl hev hf hx hw hr)).2.1]
                  obtain ⟨hvc, hvlt, g₀, f₀, hg₀, hf₀, hu₀, hb₀, he₀⟩ := hvic bid rfl
                  rw [hf] at hg₀
                  cases hg₀
                  constructor
                  · show (pid :: (ptRemove (ptRemove m.page_table f.buffer.page_id) pid).map Prod.fst).Nodup
                    refine List.Nodup.cons ?_ ?_
                    · intro hmem
                      obtain ⟨e, he, hee⟩ := List.mem_map.mp hmem
                      have := (mem_ptRemove.mp he).2
                      exact this hee
                    · exact ((ptRemove_keys_sublist _ _).trans (ptRemove_keys_sublist _ _)).nodup hkeys
                  · intro e he
                    rcases List.mem_cons.mp he with heq | hmem
                    · subst heq
                      refine ⟨_, List.getElem?_set_eq (by have := hok.1; omega), rfl⟩
                    · obtain ⟨hmem₁, hne₁⟩ := mem_ptRemove.mp hmem
                      obtain ⟨hmem₂, hne₂⟩ := mem_ptRemove.mp hmem₁
                      obtain ⟨f₁, hf₁, hpid₁⟩ := hcons e hmem₂
                      by_cases hbe : bid = e.2
                      · subst hbe
                        rw [hf₀] at hf₁
                        cases hf₁
                        exact absurd (by rw [← hpid₁, hb₀]) hne₂.symm
                      · obtain ⟨g₂, hg₂, hgb₂⟩ := framesOk_buffer_preserved hok hf₁
                        refine ⟨g₂, ?_, by rw [hgb₂, hpid₁]⟩
                        show ((q.buffers.set bid _))[e.2]? = some g₂
                        rw [List.getElem?_set_ne hbe]
                        exact hg₂
            · exact absurd (fetch_split (fetch_miss_pinned m pid bid q f hl hev hf hx)).1 hne

theorem goodStep_step {m m₂ : BufferPoolManager} (h : GoodStep m m₂) : Step m m₂ := by
  cases h with
  | fetch pid hne _ => exact .fetch m pid hne
  | drop b hb => exact .drop m b hb

theorem reachGood_reach {m₀ m : BufferPoolManager} (h : ReachGood m₀ m) : Reach m₀ m := by
  induction h with
  | refl => exact Relation.ReflTransGen.refl
  | tail _ hstep ih => exact Relation.ReflTransGen.tail ih (goodStep_step hstep)

theorem reach_pin_length {m₀ m : BufferPoolManager} (h : Reach m₀ m) (hp : PinInv m₀) :
    PinInv m ∧ m.pool.buffers.length = m₀.pool.buffers.length := by
  induction h with
  | refl => exact ⟨hp, rfl⟩
  | tail _ hstep ih =>
    obtain ⟨hp₁, hl₁⟩ := ih
    obtain ⟨hp₂, hl₂⟩ := step_pin _ _ hstep hp₁
    exact ⟨hp₂, hl₂.trans hl₁⟩

theorem reachGood_table {m₀ m : BufferPoolManager} (h : ReachGood m₀ m)
    (ht : TableInv m₀) : TableInv m := by
  induction h with
  | refl => exact ht
  | tail _ hstep ih => exact goodStep_table _ _ hstep ih

/-! ### Concrete states used by witnesses and counterexamples

All concrete facts below are proved by `rfl` or by rewriting with the
`List.replicate` lemmas; page-sized lists are never traversed element by
element. -/

theorem wInit_read (data : Page) : wInit.disk.read_page_data 0 data = .ok pageZ := by
  show (DiskManager.new wFile []).read_page_data 0 data = .ok pageZ
  unfold DiskManager.read_page_data DiskManager.new wFile pageZ
  rw [Nat.mul_zero, List.drop_zero]
  rw [if_pos (by rw [List.length_replicate])]
  rw [List.take_replicate, Nat.min_self]

theorem wInit_fetch : fetch_page wInit 0 = (.ok 0, wS1, [.read 0]) := by
  have h := fetch_miss_ok wInit 0 0 wInit.pool Frame.default wInit.disk [] pageZ
    rfl rfl rfl rfl rfl (wInit_read Frame.default.buffer.page)
  rw [h]
  exact rfl

theorem wS1_step : Step wInit wS1 := by
  have h := Step.fetch wInit 0 (by rw [fetchOut, wInit_fetch]; simp)
  rwa [show fetchSt wInit 0 = wS1 by rw [fetchSt, wInit_fetch]] at h

theorem wS1_goodStep : GoodStep wInit wS1 := by
  have h := GoodStep.fetch wInit 0 (by rw [fetchOut, wInit_fetch]; simp)
    (by rw [fetchOut, wInit_fetch]; simp)
  rwa [show fetchSt wInit 0 = wS1 by rw [fetchSt, wInit_fetch]] at h

theorem wS1_reach : Reach wInit wS1 := Relation.ReflTransGen.single wS1_step

theorem wS1_reachGood : ReachGood wInit wS1 := Relation.ReflTransGen.single wS1_goodStep

theorem cexDisk_read0 (data : Page) : cexDisk.read_page_data 0 data = .ok pageZ := by
  unfold cexDisk DiskManager.read_page_data DiskManager.new cexFile pageZ
  rw [Nat.mul_zero, List.drop_zero]
  rw [if_pos (by rw [List.length_replicate]; omega)]
  rw [List.take_replicate]
  rw [show PAGE_SIZE ⊓ (2 * PAGE_SIZE) = PAGE_SIZE by omega]

theorem cexDisk_read1 (data : Page) : cexDisk.read_page_data 1 data = .ok pageZ := by
  unfold cexDisk DiskManager.read_page_data DiskManager.new cexFile pageZ
  rw [List.drop_replicate]
  rw [if_pos (by rw [List.length_replicate]; omega)]
  rw [List.take_replicate]
  rw [show PAGE_SIZE ⊓ (2 * PAGE_SIZE - PAGE_SIZE * 1) = PAGE_SIZE by omega]

theorem cexDisk_read2 : cexDisk.read_page_data 2 pageZ = .error pageZ := by
  unfold cexDisk DiskManager.read_page_data DiskManager.new cexFile
  rw [List.drop_replicate]
  rw [show 2 * PAGE_SIZE - PAGE_SIZE * 2 = 0 by omega]
  rw [if_neg (by rw [List.length_replicate]; unfold PAGE_SIZE; omega)]
  rw [List.replicate_zero, List.nil_append, List.length_nil, List.drop_zero]

theorem cexFetch0 : fetch_page cexInit 0 = (.ok 0, cexS1, [.read 0]) := by
  have h := fetch_miss_ok cexInit 0 0 cexInit.pool Frame.default cexDisk [] pageZ
    rfl rfl rfl rfl rfl (cexDisk_read0 Frame.default.buffer.page)
  rw [h]
  exact rfl

theorem cexStep1 : Step cexInit cexS1 := by
  have h := Step.fetch cexInit 0 (by rw [fetchOut, cexFetch0]; simp)
  rwa [show fetchSt cexInit 0 = cexS1 by rw [fetchSt, cexFetch0]] at h

theorem cexStep2 : Step cexS1 cexS2 := by
  have h := Step.drop cexS1 0 (by decide)
  rwa [show dropHandle cexS1 0 = cexS2 from rfl] at h

theorem cexFetch2 : fetch_page cexS2 2 = (.err .io, cexS3, []) := by
  have hev : cexS2.pool.evict =
      .ok (some 0) { buffers := [{ usage_count := 0,
                                   buffer := { page_id := 0, page := pageZ, is_dirty := false },
                                   extRefs := 0 }],
                     next_victim_id := 0 } := rfl
  have h := fetch_miss_read_err cexS2 2 0 _
    ({ usage_count := 0, buffer := { page_id := 0, page := pageZ, is_dirty := false },
       extRefs := 0 }) cexDisk [] pageZ rfl hev rfl rfl rfl cexDisk_read2
  rw [h]
  exact rfl

theorem cexStep3 : Step cexS2 cexS3 := by
  have h := Step.fetch cexS2 2 (by rw [fetchOut, cexFetch2]; simp)
  rwa [show fetchSt cexS2 2 = cexS3 by rw [fetchSt, cexFetch2]] at h

theorem cexFetch1 : fetch_page cexS3 1 = (.ok 0, cexS4, [.read 1]) := by
  have h := fetch_miss_ok cexS3 1 0 cexS3.pool
    ({ usage_count := 0, buffer := { page_id := 2, page := pageZ, is_dirty := false },
       extRefs := 0 }) cexDisk [] pageZ rfl rfl rfl rfl rfl (cexDisk_read1 pageZ)
  rw [h]
  exact rfl

theorem cexStep4 : Step cexS3 cexS4 := by
  have h := Step.fetch cexS3 1 (by rw [fetchOut, cexFetch1]; simp)
  rwa [show fetchSt cexS3 1 = cexS4 by rw [fetchSt, cexFetch1]] at h

theorem cexReach : Reach cexInit cexS4 :=
  (((Relation.ReflTransGen.single cexStep1).tail cexStep2).tail cexStep3).tail cexStep4

/-! ### Claim theorems -/

/-- C3: `fetch_page` on a PageId already in the page table performs no disk
read and no disk write (empty event trace), increments the mapped frame's
recency counter by exactly one, and returns a shared handle to that frame's
existing Buffer (one more external reference, buffer bytes unchanged); the
page table, every other frame, the scan cursor and the disk are unchanged
(the resulting state differs from `m` only in that one `List.set`). -/
theorem claim3_hit_no_io (m : BufferPoolManager) (pid bid : Nat) (f : Frame)
    (hl : m.page_table.lookup pid = some bid)
    (hf : m.pool.buffers[bid]? = some f) :
    fetchOut m pid = .ok bid ∧ fetchEv m pid = [] ∧
      fetchSt m pid =
        { m with pool := { m.pool with buffers := m.pool.buffers.set bid ({ f with
            usage_count := f.usage_count + 1, extRefs := f.extRefs + 1 }) } } := by
  obtain ⟨h₁, h₂, h₃⟩ := fetch_split (fetch_hit m pid bid f hl hf)
  exact ⟨h₁, h₃, h₂⟩

/-- C3 witness: a concrete hit on a one-frame pool holding page 0. -/
theorem claim3_witness :
    wS1.page_table.lookup 0 = some 0 ∧
      wS1.pool.buffers[0]? = some wS1Frame ∧
      fetchOut wS1 0 = .ok 0 ∧ fetchEv wS1 0 = [] := by
  have h := claim3_hit_no_io wS1 0 0 wS1Frame rfl rfl
  exact ⟨rfl, rfl, h.1, h.2.1⟩

/-- C2: a `fetch_page` miss that completes without error performs, in order,
exactly one disk write — present iff the victim buffer's modified flag was
set, carrying the victim's pre-overwrite bytes under the victim's
pre-overwrite PageId, and preceding the load that overwrites the frame —
followed by exactly one disk read, of the requested page, and it sets the
refreshed frame's recency counter to 1. -/
theorem claim2_miss_one_load (m : BufferPoolManager) (pid bid : Nat)
    (q : BufferPool) (f : Frame)
    (hl : m.page_table.lookup pid = none)
    (hev : m.pool.evict = .ok (some bid) q)
    (hf : q.buffers[bid]? = some f)
    (hok : fetchOut m pid = .ok bid) :
    fetchEv m pid =
      (if f.buffer.is_dirty then [.write f.buffer.page_id f.buffer.page] else [])
        ++ [.read pid] ∧
      usageAt (fetchSt m pid) bid = 1 := by
  obtain ⟨hok₁, hcur₁, hvic⟩ := evict_ok_props _ _ _ hev
  obtain ⟨hvc, hvlt, hrest⟩ := hvic bid rfl
  have hbidq : bid < q.buffers.length := by
    have := hok₁.1
    omega
  by_cases hx : f.extRefs = 0
  · cases hw : flushStep m.disk f.buffer with
    | error d₀ =>
      rw [(fetch_split (fetch_miss_flush_err m pid bid q f d₀ hl hev hf hx hw)).1] at hok
      simp at hok
    | ok pr =>
      obtain ⟨d, ev⟩ := pr
      cases hr : d.read_page_data pid f.buffer.page with
      | error filled =>
        rw [(fetch_split
          (fetch_miss_read_err m pid bid q f d ev filled hl hev hf hx hw hr)).1] at hok
        simp at hok
      | ok bytes =>
        obtain ⟨ho, hst, hevts⟩ :=
          fetch_split (fetch_miss_ok m pid bid q f d ev bytes hl hev hf hx hw hr)
        constructor
        · rw [hevts]
          congr 1
          unfold flushStep at hw
          by_cases hd : f.buffer.is_dirty
          · rw [if_pos hd] at hw
            cases hwr : m.disk.write_page_data f.buffer.page_id f.buffer.page with
            | error d₁ => rw [hwr] at hw; simp at hw
            | ok d₀ =>
              rw [hwr] at hw
              simp only [Except.ok.injEq, Prod.mk.injEq] at hw
              rw [if_pos hd, ← hw.2]
          · rw [if_neg hd] at hw
            cases hw
            rw [if_neg hd]
        · rw [hst]
          unfold usageAt
          show (((q.buffers.set bid _))[bid]?.map Frame.usage_count).getD 0 = 1
          rw [List.getElem?_set_eq hbidq]
          rfl
  · rw [(fetch_split (fetch_miss_pinned m pid bid q f hl hev hf hx)).1] at hok
    simp at hok

/-- C2 witness: a concrete successful miss on a fresh one-frame pool; the
victim is clean, so the trace is exactly one read. -/
theorem claim2_witness :
    wInit.page_table.lookup 0 = none ∧
      wInit.pool.evict = .ok (some 0) wInit.pool ∧
      wInit.pool.buffers[0]? = some Frame.default ∧
      fetchOut wInit 0 = .ok 0 ∧
      fetchEv wInit 0 = [.read 0] ∧ usageAt (fetchSt wInit 0) 0 = 1 := by
  have hko : fetchOut wInit 0 = .ok 0 := by rw [fetchOut, wInit_fetch]
  have h := claim2_miss_one_load wInit 0 0 wInit.pool Frame.default rfl rfl rfl hko
  refine ⟨rfl, rfl, rfl, hko, ?_, h.2⟩
  rw [h.1]
  rfl

/-- C4: the three-way rule of the eviction scan at an examined frame:
recency 0 selects the frame immediately, with no check that it is unpinned;
otherwise an unpinned frame has its recency decremented and the scan
continues (streak reset); otherwise the pinned streak grows, and when it
reaches `pool_size` the scan stops, which makes `evict` return no victim. -/
theorem claim4_scan_rule (fuel : Nat) (fs : List Frame) (c s : Nat) (f : Frame)
    (hc : fs[c]? = some f) :
    (f.usage_count = 0 → evictLoop (fuel + 1) fs c s = .found c fs c) ∧
    (f.usage_count ≠ 0 → f.extRefs = 0 →
      evictLoop (fuel + 1) fs c s =
        evictLoop fuel (fs.set c ({ f with usage_count := f.usage_count - 1 }))
          ((c + 1) % fs.length) 0) ∧
    (f.usage_count ≠ 0 → f.extRefs ≠ 0 → fs.length ≤ s + 1 →
      evictLoop (fuel + 1) fs c s = .exhausted fs c) ∧
    (f.usage_count ≠ 0 → f.extRefs ≠ 0 → s + 1 < fs.length →
      evictLoop (fuel + 1) fs c s = evictLoop fuel fs ((c + 1) % fs.length) (s + 1)) ∧
    (∀ (p : BufferPool) (fs₁ : List Frame) (c₁ : Nat),
      evictLoop (evictFuel p.buffers) p.buffers p.next_victim_id 0 = .exhausted fs₁ c₁ →
      p.evict = .ok none { buffers := fs₁, next_victim_id := c₁ }) := by
  refine ⟨fun hu => ?_, fun hu he => ?_, fun hu he hs => ?_, fun hu he hs => ?_,
    fun p fs₁ c₁ hx => ?_⟩
  · simp [evictLoop, hc, hu]
  · simp [evictLoop, hc, hu, he]
  · simp [evictLoop, hc, hu, he, hs]
  · simp only [evictLoop, hc]
    rw [if_neg hu, if_neg he, if_neg (by omega)]
  · unfold BufferPool.evict
    rw [hx]

/-- C4 witness: a fresh frame has recency 0 and is selected immediately. -/
theorem claim4_witness :
    ([Frame.default] : List Frame)[0]? = some Frame.default ∧
      evictLoop 1 [Frame.default] 0 0 = .found 0 [Frame.default] 0 := by
  have h := claim4_scan_rule 0 [Frame.default] 0 0 Frame.default rfl
  exact ⟨rfl, h.1 rfl⟩

/-- Reading page 1 of `w6Disk` fails after overwriting the first 100 bytes
of the caller's buffer with the available file bytes. -/
theorem w6_read1 : w6Disk.read_page_data 1 p6prior = .error p6filled := by
  unfold w6Disk DiskManager.read_page_data p6file
  simp only
  rw [show PAGE_SIZE * 1 = (List.replicate PAGE_SIZE (0:Nat)).length by
    rw [List.length_replicate]; omega]
  rw [List.drop_left]
  rw [if_neg (by unfold p6avail; rw [List.length_replicate]; unfold PAGE_SIZE; omega)]
  unfold p6filled p6avail p6prior
  rw [List.length_replicate, List.drop_replicate]

/-- C6 counterexample: fetching the partially-present page 1 of `w6` fails
in the load step, and the victim buffer then holds the requested PageId
with the modified flag cleared but with its first 100 bytes overwritten by
the partial read — not its prior (stale) bytes, contradicting the claim's
read-failure conclusion. -/
theorem claim6_counterexample :
    w6.page_table.lookup 1 = none ∧
      fetchOut w6 1 = .err .io ∧
      bufAt w6 0 = some { page_id := 0, page := p6prior, is_dirty := false } ∧
      bufAt (fetchSt w6 1) 0 =
        some { page_id := 1, page := p6filled, is_dirty := false } ∧
      p6filled ≠ p6prior := by
  have h := fetch_miss_read_err w6 1 0 w6.pool w6Frame w6Disk [] p6filled
    rfl rfl rfl rfl rfl w6_read1
  obtain ⟨ho, hst, hevts⟩ := fetch_split h
  refine ⟨rfl, ho, rfl, ?_, ?_⟩
  · rw [hst]
    exact rfl
  · intro hcontr
    have h0 : p6filled[0]? = p6prior[0]? := by rw [hcontr]
    unfold p6filled p6prior PAGE_SIZE at h0
    simp only [List.getElem?_append, List.getElem?_replicate,
      List.length_replicate] at h0
    norm_num at h0

/-- C6 (amended): I/O-error handling on the miss path.  If the flush of the
dirty victim fails, the error is propagated while the victim buffer (bytes,
PageId, modified flag) and the page table are untouched.  If the flush step
succeeds (or the victim was clean) and the subsequent load fails, the error
is propagated while the victim frame's buffer already carries the requested
PageId with the modified flag cleared and holds its prior bytes with their
prefix overwritten by whatever the failed read could pull from the file —
exactly the prior (stale) bytes when nothing was readable at the offset;
the page table is untouched. -/
theorem claim6_io_error_states (m : BufferPoolManager) (pid bid : Nat)
    (q : BufferPool) (f : Frame)
    (hl : m.page_table.lookup pid = none)
    (hev : m.pool.evict = .ok (some bid) q)
    (hf : q.buffers[bid]? = some f)
    (hx : f.extRefs = 0) :
    (∀ (d₀ : DiskManager), flushStep m.disk f.buffer = .error d₀ →
       fetchOut m pid = .err .io ∧
       (fetchSt m pid).page_table = m.page_table ∧
       bufAt (fetchSt m pid) bid = bufAt m bid ∧
       bufAt m bid = some f.buffer) ∧
    (∀ (d : DiskManager) (ev : List IOEvent) (filled : Page),
      flushStep m.disk f.buffer = .ok (d, ev) →
      d.read_page_data pid f.buffer.page = .error filled →
       fetchOut m pid = .err .io ∧
       (fetchSt m pid).page_table = m.page_table ∧
       bufAt (fetchSt m pid) bid =
         some { page_id := pid, page := filled, is_dirty := false } ∧
       filled = d.heap_file.drop (PAGE_SIZE * pid) ++
         f.buffer.page.drop (d.heap_file.drop (PAGE_SIZE * pid)).length) := by
  obtain ⟨hok₁, hcur₁, hvic⟩ := evict_ok_props _ _ _ hev
  obtain ⟨hvc, hvlt, g₀, f₀, hg₀, hf₀, hu₀, hb₀, he₀⟩ := hvic bid rfl
  rw [hf] at hg₀
  cases hg₀
  have hbidq : bid < q.buffers.length := by
    have := hok₁.1
    omega
  have hbm : bufAt m bid = some f.buffer := by
    unfold bufAt
    rw [hf₀]
    simp [← hb₀]
  constructor
  · intro d₀ hw
    obtain ⟨ho, hst, hevts⟩ :=
      fetch_split (fetch_miss_flush_err m pid bid q f d₀ hl hev hf hx hw)
    rw [ho, hst]
    refine ⟨rfl, rfl, ?_, hbm⟩
    rw [hbm]
    unfold bufAt
    show (q.buffers[bid]?.map Frame.buffer) = _
    rw [hf]
    rfl
  · intro d ev filled hw hr
    obtain ⟨ho, hst, hevts⟩ :=
      fetch_split (fetch_miss_read_err m pid bid q f d ev filled hl hev hf hx hw hr)
    rw [ho, hst]
    refine ⟨rfl, rfl, ?_, ?_⟩
    · unfold bufAt
      show (((q.buffers.set bid _))[bid]?.map Frame.buffer) = _
      rw [List.getElem?_set_eq hbidq]
      rfl
    · unfold DiskManager.read_page_data at hr
      split at hr
      · cases hr
      · exact ((Except.error.injEq _ _).mp hr).symm

/-- C6 witness: a pool whose single frame holds a dirty page 3 while the
environment fails the write of page 3 before any byte lands; the flush
fails and the buffer and table are untouched. -/
theorem claim6_witness :
    wDirty.page_table.lookup 7 = none ∧
      wDirty.pool.evict = .ok (some 0) wDirty.pool ∧
      wDirty.pool.buffers[0]? = some wDirtyFrame ∧
      flushStep wDirty.disk wDirtyFrame.buffer = .error wDirty.disk ∧
      fetchOut wDirty 7 = .err .io ∧
      (fetchSt wDirty 7).page_table = wDirty.page_table := by
  have h := (claim6_io_error_states wDirty 7 0 wDirty.pool wDirtyFrame
    rfl rfl rfl rfl).1 wDirty.disk rfl
  exact ⟨rfl, rfl, rfl, rfl, h.1, h.2.1⟩

/-- C9 counterexample: on a fresh two-frame pool, `evict` selects frame 0
(recency 0) but returns with `next_victim_id` still 0 — the cursor has not
advanced past the selected victim, so the next call does not begin at the
frame after the one last examined (which would be slot 1). -/
theorem claim9_counterexample :
    (BufferPool.new 2).evict = .ok (some 0) (BufferPool.new 2) ∧
      (BufferPool.new 2).next_victim_id = 0 ∧ (0 : Nat) ≠ 1 :=
  ⟨rfl, rfl, by omega⟩

/-- C9 (amended): the cursor advances past the examined frame in the two
scan-continuing cases (second-chance decrement and pinned streak), but when
a victim is selected the cursor is left pointing at the victim itself, so
the next `evict` call begins its scan at the victim's slot, not after it. -/
theorem claim9_cursor (p : BufferPool) (b : Nat) (q : BufferPool)
    (h : p.evict = .ok (some b) q) :
    q.next_victim_id = b ∧
    (∀ (fuel : Nat) (fs : List Frame) (c s : Nat) (f : Frame), fs[c]? = some f →
      f.usage_count ≠ 0 → f.extRefs = 0 →
      evictLoop (fuel + 1) fs c s =
        evictLoop fuel (fs.set c ({ f with usage_count := f.usage_count - 1 }))
          ((c + 1) % fs.length) 0) ∧
    (∀ (fuel : Nat) (fs : List Frame) (c s : Nat) (f : Frame), fs[c]? = some f →
      f.usage_count ≠ 0 → f.extRefs ≠ 0 → s + 1 < fs.length →
      evictLoop (fuel + 1) fs c s = evictLoop fuel fs ((c + 1) % fs.length) (s + 1)) := by
  refine ⟨((evict_ok_props _ _ _ h).2.2 b rfl).1, ?_, ?_⟩
  · intro fuel fs c s f hc hu he
    simp [evictLoop, hc, hu, he]
  · intro fuel fs c s f hc hu he hs
    simp only [evictLoop, hc]
    rw [if_neg hu, if_neg he, if_neg (by omega)]

/-- C9 witness: a concrete selection that leaves the cursor at the victim. -/
theorem claim9_witness :
    (BufferPool.new 1).evict = .ok (some 0) (BufferPool.new 1) ∧
      (BufferPool.new 1).next_victim_id = 0 := by
  have h := claim9_cursor (BufferPool.new 1) 0 (BufferPool.new 1) rfl
  exact ⟨rfl, h.1⟩

/-- C10 counterexample to the claimed iteration bound: with frame 0 unpinned
at recency 5 and frame 1 pinned at recency 1, the scan is still running
after `sumUsage + pool_size = 8` iterations (`evictLoop` with that much fuel
runs out of fuel instead of reaching a loop exit). -/
theorem claim10_counterexample :
    sumUsage c10frames + c10frames.length = 8 ∧
      evictLoop (sumUsage c10frames + c10frames.length) c10frames 0 0 = .fuelOut :=
  ⟨rfl, rfl⟩

/-- C10 (amended): for every pool state with the cursor inside the frame
array, the eviction scan terminates normally, with `found` or `exhausted` —
it neither panics nor runs out of `evictFuel = sumUsage * (pool_size + 1) +
pool_size + 1` iterations (the bound `sumUsage + pool_size` of the claim is
too small, see the counterexample), giving the loop more fuel does not
change its result, and `BufferPool.evict` returns `.ok` (`Some victim` or
`None`) on every such pool — in particular on every pool built by
`BufferPool::new(pool_size)` with `pool_size >= 1`; for an empty frame
array (`pool_size = 0`) the first frame access panics instead, both in the
raw scan and in `BufferPool.evict` on `BufferPool.new 0`. -/
theorem claim10_termination (fs : List Frame) (c s fuel : Nat) :
    (evictLoop (evictFuel fs) fs c s ≠ .fuelOut) ∧
    (c < fs.length → evictLoop (evictFuel fs) fs c s ≠ .crash) ∧
    (evictFuel fs ≤ fuel → evictLoop fuel fs c s = evictLoop (evictFuel fs) fs c s) ∧
    (∀ p : BufferPool, p.next_victim_id < p.buffers.length →
      ∃ v q, p.evict = .ok v q) ∧
    (evictLoop (fuel + 1) [] c s = .crash) ∧
    ((BufferPool.new 0).evict = .crash) := by
  have hne : evictLoop (evictFuel fs) fs c s ≠ .fuelOut := by
    apply evictLoop_ne_fuelOut
    have : fs.length - s ≤ fs.length := Nat.sub_le _ _
    simp only [evictFuel]
    omega
  refine ⟨hne, fun hc => evictLoop_ne_crash _ _ _ _ hc,
    fun hle => evictLoop_stable _ _ _ _ _ hle hne, ?_, ?_, rfl⟩
  · intro p hp
    cases hl : evictLoop (evictFuel p.buffers) p.buffers p.next_victim_id 0 with
    | found v fs₁ c₁ =>
      refine ⟨some v, { buffers := fs₁, next_victim_id := c₁ }, ?_⟩
      unfold BufferPool.evict
      rw [hl]
    | exhausted fs₁ c₁ =>
      refine ⟨none, { buffers := fs₁, next_victim_id := c₁ }, ?_⟩
      unfold BufferPool.evict
      rw [hl]
    | crash => exact absurd hl (evictLoop_ne_crash _ _ _ _ hp)
    | fuelOut =>
      refine absurd hl (evictLoop_ne_fuelOut _ _ _ _ ?_)
      have : p.buffers.length - 0 ≤ p.buffers.length := Nat.sub_le _ _
      simp only [evictFuel]
      omega
  · simp [evictLoop]

/-- C10 witness: concrete instances of the termination statement, including
the no-crash conclusion on the two-frame pool and a successful `evict` on a
singleton pool. -/
theorem claim10_witness :
    evictLoop (evictFuel c10frames) c10frames 0 0 ≠ .fuelOut ∧
      evictLoop (evictFuel c10frames) c10frames 0 0 ≠ .crash ∧
      (∃ v q, (BufferPool.new 1).evict = .ok v q) ∧
      evictLoop 1 [] 0 0 = .crash := by
  have h := claim10_termination c10frames 0 0 0
  exact ⟨h.1, h.2.1 (by decide), h.2.2.2.1 (BufferPool.new 1) (by decide),
    (claim10_termination [] 0 0 0).2.2.2.2.1⟩

/-- C1 counterexample: from a fresh manager (pool size 1 over a two-page
file), the four-step trace fetch 0 / drop the handle / fetch the unreadable
page 2 (its load fails) / fetch 1 reaches a state whose page table holds
both (0, 0) and (1, 0): two distinct PageIds mapped to the same BufferId, so
the table is not a bijection.  The claim quantifies over every sequence of
`fetch_page` calls and handle drops, which includes calls that return I/O
errors. -/
theorem claim1_counterexample :
    Reach cexInit cexS4 ∧ (0, 0) ∈ cexS4.page_table ∧ (1, 0) ∈ cexS4.page_table ∧
      (0 : Nat) ≠ 1 :=
  ⟨cexReach, by simp [cexS4], by simp [cexS4], by omega⟩

/-- C1 (amended): in every state reachable from a fresh manager by fetches
and handle drops in which no `fetch_page` call returned an I/O error, the
page table is a bijection between resident PageIds and occupied BufferIds:
its keys are pairwise distinct, every entry points at a frame whose buffer
carries exactly that PageId, and no BufferId is the target of two entries. -/
theorem claim1_table_bijection (file : List Nat) (write_errs : List (Nat × Nat)) (n : Nat)
    (m : BufferPoolManager) (h : ReachGood (initMgr file write_errs n) m) :
    (m.page_table.map Prod.fst).Nodup ∧
    (∀ e ∈ m.page_table, ∃ f, m.pool.buffers[e.2]? = some f ∧ f.buffer.page_id = e.1) ∧
    (∀ e₁ ∈ m.page_table, ∀ e₂ ∈ m.page_table, e₁.2 = e₂.2 → e₁ = e₂) := by
  obtain ⟨hkeys, hcons⟩ := reachGood_table h (tableInv_init file write_errs n)
  refine ⟨hkeys, hcons, fun e₁ h₁ e₂ h₂ hsnd => ?_⟩
  obtain ⟨f₁, hf₁, hp₁⟩ := hcons e₁ h₁
  obtain ⟨f₂, hf₂, hp₂⟩ := hcons e₂ h₂
  rw [hsnd] at hf₁
  have hff : f₁ = f₂ := by
    rw [hf₁] at hf₂
    exact (Option.some.injEq _ _).mp hf₂
  have hkey : e₁.1 = e₂.1 := by rw [← hp₁, ← hp₂, hff]
  exact List.inj_on_of_nodup_map hkeys h₁ h₂ hkey

/-- C1 witness: the bijection at a concrete error-free reachable state. -/
theorem claim1_witness :
    ReachGood wInit wS1 ∧ (wS1.page_table.map Prod.fst).Nodup ∧
      (∀ e ∈ wS1.page_table, ∃ f, wS1.pool.buffers[e.2]? = some f ∧
        f.buffer.page_id = e.1) := by
  have h := claim1_table_bijection wFile [] 1 wS1 wS1_reachGood
  exact ⟨wS1_reachGood, h.1, h.2.1⟩

/-- C5 counterexample (the claim is refuted by proving its negation): no
state reachable from any fresh manager by fetches and handle drops has a
frame whose recency counter is zero while its buffer is still pinned —
every way of acquiring a handle (hit or load) also makes the recency
counter positive, and the scan never decrements a pinned frame. -/
theorem claim5_counterexample :
    ¬ ∃ (file : List Nat) (write_errs : List (Nat × Nat)) (n : Nat)
        (m : BufferPoolManager) (b : Nat) (f : Frame),
          Reach (initMgr file write_errs n) m ∧ m.pool.buffers[b]? = some f ∧
            f.usage_count = 0 ∧ 0 < f.extRefs := by
  rintro ⟨file, we, n, m, b, f, hr, hf, hu, he⟩
  have hp := (reach_pin_length hr (pinInv_init file we n)).1
  have := hp.1 b f hf he
  omega

/-- C5 (amended): in every reachable state a pinned frame has a positive
recency counter, so the eviction scan can only ever select an unpinned
victim and the manager's exclusive-reuse step never operates on a page that
is still in use. -/
theorem claim5_no_pinned_victim (file : List Nat) (write_errs : List (Nat × Nat)) (n : Nat)
    (m : BufferPoolManager) (h : Reach (initMgr file write_errs n) m) :
    (∀ (b : Nat) (f : Frame), m.pool.buffers[b]? = some f →
      0 < f.extRefs → 0 < f.usage_count) ∧
    (∀ (b : Nat) (q : BufferPool) (g : Frame),
      m.pool.evict = .ok (some b) q → q.buffers[b]? = some g → g.extRefs = 0) := by
  have hp := (reach_pin_length h (pinInv_init file write_errs n)).1
  refine ⟨hp.1, fun b q g hev hg => ?_⟩
  obtain ⟨hok, hcur, hvic⟩ := evict_ok_props _ _ _ hev
  obtain ⟨hvc, hvlt, g₀, f₀, hg₀, hf₀, hu₀, hb₀, he₀⟩ := hvic b rfl
  rw [hg] at hg₀
  cases hg₀
  by_contra hne
  have hfe : 0 < f₀.extRefs := by omega
  have hfu := hp.1 b f₀ hf₀ hfe
  obtain ⟨f₁, hf₁, hle⟩ := hok.2 b g hg
  rw [hf₀] at hf₁
  have hq : f₀ = f₁ := (Option.some.injEq _ _).mp hf₁
  rw [← hq] at hle
  obtain ⟨_, _, hu₁, hd₁⟩ := hle
  by_cases huq : g.usage_count = f₀.usage_count
  · omega
  · have := hd₁ huq
    omega

/-- C5 witness: the amended statement at a concrete reachable state. -/
theorem claim5_witness :
    Reach wInit wS1 ∧
      (∀ (b : Nat) (f : Frame), wS1.pool.buffers[b]? = some f →
        0 < f.extRefs → 0 < f.usage_count) := by
  have h := claim5_no_pinned_victim wFile [] 1 wS1 wS1_reach
  exact ⟨wS1_reach, h.1⟩

/-- C7: at any reachable state of a pool of size `n > 0` in which every
frame's buffer is externally held (every resident page pinned, pool full),
`fetch_page` on a PageId not in the page table returns `NoFreeBuffer`. -/
theorem claim7_exhaustion (file : List Nat) (write_errs : List (Nat × Nat)) (n : Nat)
    (m : BufferPoolManager) (pid : Nat)
    (h : Reach (initMgr file write_errs n) m) (hn : 0 < n)
    (hpin : ∀ b, b < m.pool.buffers.length → 0 < extAt m b)
    (hmiss : m.page_table.lookup pid = none) :
    fetchOut m pid = .err .noFreeBuffer := by
  obtain ⟨⟨hpf, hcur⟩, hlen⟩ := reach_pin_length h (pinInv_init file write_errs n)
  have hlen₀ : m.pool.buffers.length = n := by
    rw [hlen]
    simp [initMgr, BufferPool.new]
  have hall : ∀ (i : Nat) (f : Frame), m.pool.buffers[i]? = some f →
      0 < f.extRefs ∧ 0 < f.usage_count := by
    intro i f hf
    have hi := getElem?_some_lt hf
    have he := hpin i hi
    unfold extAt at he
    rw [hf] at he
    simp at he
    exact ⟨he, hpf i f hf he⟩
  have hc : m.pool.next_victim_id < m.pool.buffers.length := hcur (by omega)
  obtain ⟨c₁, hloop⟩ := evictLoop_all_pinned (evictFuel m.pool.buffers) m.pool.buffers
    m.pool.next_victim_id 0 hall hc (by omega) (by simp only [evictFuel]; omega)
  have hev : m.pool.evict = .ok none ⟨m.pool.buffers, c₁⟩ := by
    unfold BufferPool.evict
    rw [hloop]
  exact (fetch_split (fetch_miss_nofree m pid _ hmiss hev)).1

/-- C7 witness: pool size 1, page 0 fetched and held; fetching page 1 gives
`NoFreeBuffer`. -/
theorem claim7_witness :
    Reach wInit wS1 ∧ 0 < 1 ∧
      (∀ b, b < wS1.pool.buffers.length → 0 < extAt wS1 b) ∧
      wS1.page_table.lookup 1 = none ∧
      fetchOut wS1 1 = .err .noFreeBuffer := by
  have hpin : ∀ b, b < wS1.pool.buffers.length → 0 < extAt wS1 b := by decide
  have h := claim7_exhaustion wFile [] 1 wS1 1 wS1_reach (by omega) hpin rfl
  exact ⟨wS1_reach, by omega, hpin, rfl, h⟩

/-- C8 counterexample: the same four-step trace as the C1 counterexample
(possible because the failed load of page 2 leaves a stale table entry)
ends with 2 page-table entries in a pool of size 1. -/
theorem claim8_counterexample :
    Reach cexInit cexS4 ∧ cexInit.pool.buffers.length = 1 ∧
      cexS4.page_table.length = 2 ∧ ¬ (cexS4.page_table.length ≤ 1) :=
  ⟨cexReach, rfl, rfl, by simp [cexS4]⟩

/-- C8 (amended): in every state reachable from a fresh manager with pool
size `n` by fetches and handle drops in which no `fetch_page` call returned
an I/O error, the page table has at most `n` entries. -/
theorem claim8_capacity (file : List Nat) (write_errs : List (Nat × Nat)) (n : Nat)
    (m : BufferPoolManager) (h : ReachGood (initMgr file write_errs n) m) :
    m.page_table.length ≤ n := by
  obtain ⟨hkeys, hcons⟩ := reachGood_table h (tableInv_init file write_errs n)
  have hlen : m.pool.buffers.length = n := by
    rw [(reach_pin_length (reachGood_reach h) (pinInv_init file write_errs n)).2]
    simp [initMgr, BufferPool.new]
  have hmapeq : m.page_table.map Prod.fst = (m.page_table.map Prod.snd).map (pageIdAt m) := by
    rw [List.map_map]
    refine List.map_congr_left (fun e he => ?_)
    obtain ⟨f, hf, hp⟩ := hcons e he
    show e.1 = pageIdAt m e.2
    unfold pageIdAt
    rw [hf]
    simp [hp]
  have hsnd : (m.page_table.map Prod.snd).Nodup := by
    refine List.Nodup.of_map (pageIdAt m) ?_
    rw [← hmapeq]
    exact hkeys
  have hbound : ∀ b ∈ m.page_table.map Prod.snd, b < n := by
    intro b hb
    obtain ⟨e, he, hbe⟩ := List.mem_map.mp hb
    obtain ⟨f, hf, _⟩ := hcons e he
    have := getElem?_some_lt hf
    omega
  calc m.page_table.length = (m.page_table.map Prod.snd).length := by rw [List.length_map]
    _ = (m.page_table.map Prod.snd).toFinset.card := (List.toFinset_card_of_nodup hsnd).symm
    _ ≤ (Finset.range n).card := by
        refine Finset.card_le_card (fun b hb => ?_)
        exact Finset.mem_range.mpr (hbound b (List.mem_toFinset.mp hb))
    _ = n := Finset.card_range n

/-- C8 witness: the capacity bound at a concrete error-free reachable
state. -/
theorem claim8_witness : ReachGood wInit wS1 ∧ wS1.page_table.length ≤ 1 :=
  ⟨wS1_reachGood, claim8_capacity wFile [] 1 wS1 wS1_reachGood⟩

end MiniRdbms
